import Mathlib

/-!
Shallow embedding of the go-sdk `logger` package's audit-event type and
deterministic rendering helpers (`audit_event.go`, `write_helpers.go`),
together with proofs of the specified rendering, mutation and dispatch
properties.  Writers are modelled by the string they accumulate; Go maps
are modelled by association lists whose list order stands for the map's
(unspecified) iteration order.
-/

namespace Logger

/-- Model of `ansi.Color`: a string-typed terminal color tag.  The concrete
escape values never influence the rendered text in the properties below. -/
abbrev Color := String

/-- Modelled from the spec: the `ansi.ColorGray` tag (escape value immaterial). -/
def ColorGray : Color := "gray"

/-- Modelled from the spec: the `ansi.ColorBlue` tag (escape value immaterial). -/
def ColorBlue : Color := "blue"

/-- Modelled from the spec: the `ansi.ColorRed` tag (escape value immaterial). -/
def ColorRed : Color := "red"

/-- Modelled from the spec: the `ansi.ColorYellow` tag (escape value immaterial). -/
def ColorYellow : Color := "yellow"

/-- Modelled from the spec: the `ansi.ColorGreen` tag (escape value immaterial). -/
def ColorGreen : Color := "green"

/-- Modelled from the spec (section 4.2): the `logger.TextFormatter` contract.
Only the `Colorize(text, color)` capability is used by the code under
verification; it is a pure function of its inputs and the formatter's fixed
enabled/disabled state. -/
structure TextFormatter where
  colorize : String → Color → String

/-- Modelled from the spec (section 4.2): a color-disabled formatter, whose
`Colorize` returns its text unchanged. -/
def noColorFormatter : TextFormatter := ⟨fun s _ => s⟩

/-- Modelled from the spec: the `logger.Space` separator constant, a single
space written between rendered fields. -/
def Space : String := " "

/-- Modelled from the spec (section 3): `EventMeta`, the common metadata
embedded in every event.  Only the parts its `Decompose` contributes to the
JSON object are modelled: the flag/category and the timestamp (the spec lists
the contributed keys as, e.g., `flag` and `ts`). -/
structure EventMeta where
  flag : String
  ts : Nat

/-- Shallow model of the Go interface values stored in a decomposed event
map: strings, numbers, and string-to-string maps. -/
inductive JsonValue
  | str : String → JsonValue
  | num : Nat → JsonValue
  | strMap : List (String × String) → JsonValue
deriving DecidableEq

/-- Modelled from the spec (sections 4.1 and 6): `EventMeta.Decompose`
flattens the metadata into a string-keyed map contributing keys such as
`flag` and `ts`. -/
def EventMeta.decompose (m : EventMeta) : List (String × JsonValue) :=
  [("flag", .str m.flag), ("ts", .num m.ts)]

/-- Model of `logger.AuditEvent` (audit_event.go): a business-action event
embedding `EventMeta`.  `Extra` is a Go `map[string]string`, modelled as an
association list whose order stands for the map's iteration order. -/
structure AuditEvent where
  meta : EventMeta
  context : String := ""
  principal : String := ""
  verb : String := ""
  noun : String := ""
  subject : String := ""
  property : String := ""
  remoteAddress : String := ""
  userAgent : String := ""
  extra : List (String × String) := []

/-- Model of `NewAuditEvent` (audit_event.go): a fresh event with the given
principal and verb.  The embedded metadata is built by `NewEventMeta(Audit,
options...)`, which is not under src/, so the resulting metadata is taken as
a parameter. -/
def newAuditEvent (principal verb : String) (meta : EventMeta) : AuditEvent :=
  { meta := meta, principal := principal, verb := verb }

/-- Model of the repository's `Event` interface as a closed tagged union
(spec section 9): `audit` is the `*AuditEvent` variant and `other` stands
for any non-audit variant (HTTP-lifecycle events and the like). -/
inductive Event
  | audit (e : AuditEvent)
  | other (kind : String) (meta : EventMeta)

/-- Model of `NewAuditEventListener` (audit_event.go): wraps a typed callback
into a listener that type-asserts each dispatched event, invoking the
callback only on the `*AuditEvent` variant and silently ignoring all others.
The callback's side effect is modelled as a state transformer on `σ`. -/
def newAuditEventListener {Ctx σ : Type} (listener : Ctx → AuditEvent → σ → σ) :
    Ctx → Event → σ → σ :=
  fun ctx e s =>
    match e with
    | .audit typed => listener ctx typed s
    | _ => s

/-- Model of `AuditEvent.WithContext` (audit_event.go). -/
def AuditEvent.withContext (e : AuditEvent) (context : String) : AuditEvent :=
  { e with context := context }

/-- Model of `AuditEvent.WithPrincipal` (audit_event.go). -/
def AuditEvent.withPrincipal (e : AuditEvent) (principal : String) : AuditEvent :=
  { e with principal := principal }

/-- Model of `AuditEvent.WithVerb` (audit_event.go). -/
def AuditEvent.withVerb (e : AuditEvent) (verb : String) : AuditEvent :=
  { e with verb := verb }

/-- Model of `AuditEvent.WithNoun` (audit_event.go). -/
def AuditEvent.withNoun (e : AuditEvent) (noun : String) : AuditEvent :=
  { e with noun := noun }

/-- Model of `AuditEvent.WithSubject` (audit_event.go). -/
def AuditEvent.withSubject (e : AuditEvent) (subject : String) : AuditEvent :=
  { e with subject := subject }

/-- Model of `AuditEvent.WithProperty` (audit_event.go). -/
def AuditEvent.withProperty (e : AuditEvent) (property : String) : AuditEvent :=
  { e with property := property }

/-- Model of `AuditEvent.WithRemoteAddress` (audit_event.go). -/
def AuditEvent.withRemoteAddress (e : AuditEvent) (remoteAddr : String) : AuditEvent :=
  { e with remoteAddress := remoteAddr }

/-- Model of `AuditEvent.WithUserAgent` (audit_event.go). -/
def AuditEvent.withUserAgent (e : AuditEvent) (userAgent : String) : AuditEvent :=
  { e with userAgent := userAgent }

/-- Model of `AuditEvent.WithExtra` (audit_event.go). -/
def AuditEvent.withExtra (e : AuditEvent) (extra : List (String × String)) : AuditEvent :=
  { e with extra := extra }

/-- Model of `AuditEvent.WriteText` (audit_event.go): the string written to
the writer.  Each field renders, in the fixed order Context, Principal, Verb,
Noun, Subject, Property, Remote Addr, UA, only when nonempty, as the
colorized gray label, the raw value, and a trailing space; a nonempty extras
map renders as space-joined colorized `key:` plus value tokens with no
trailing space. -/
def AuditEvent.writeText (e : AuditEvent) (formatter : TextFormatter) : String :=
  (if e.context.length > 0 then
    formatter.colorize "Context:" ColorGray ++ e.context ++ Space else "") ++
  (if e.principal.length > 0 then
    formatter.colorize "Principal:" ColorGray ++ e.principal ++ Space else "") ++
  (if e.verb.length > 0 then
    formatter.colorize "Verb:" ColorGray ++ e.verb ++ Space else "") ++
  (if e.noun.length > 0 then
    formatter.colorize "Noun:" ColorGray ++ e.noun ++ Space else "") ++
  (if e.subject.length > 0 then
    formatter.colorize "Subject:" ColorGray ++ e.subject ++ Space else "") ++
  (if e.property.length > 0 then
    formatter.colorize "Property:" ColorGray ++ e.property ++ Space else "") ++
  (if e.remoteAddress.length > 0 then
    formatter.colorize "Remote Addr:" ColorGray ++ e.remoteAddress ++ Space else "") ++
  (if e.userAgent.length > 0 then
    formatter.colorize "UA:" ColorGray ++ e.userAgent ++ Space else "") ++
  (if e.extra.length > 0 then
    " ".intercalate (e.extra.map fun kv => formatter.colorize (kv.1 ++ ":") ColorGray ++ kv.2)
   else "")

/-- Modelled from the spec (section 4.1): `MergeDecomposed` merges decomposed
maps left to right, later (event-level) keys taking precedence on collision. -/
def mergeDecomposed (first second : List (String × JsonValue)) :
    List (String × JsonValue) :=
  first.filter (fun kv => !((second.map Prod.fst).contains kv.1)) ++ second

/-- Model of `AuditEvent.MarshalJSON` (audit_event.go) at the level of the
flat object handed to `json.Marshal`: the event's nine fixed camelCase keys
merged over the embedded `EventMeta`'s decomposition. -/
def AuditEvent.marshalJSONObject (e : AuditEvent) : List (String × JsonValue) :=
  mergeDecomposed e.meta.decompose
    [("context", .str e.context),
     ("principal", .str e.principal),
     ("verb", .str e.verb),
     ("noun", .str e.noun),
     ("subject", .str e.subject),
     ("property", .str e.property),
     ("remoteAddr", .str e.remoteAddress),
     ("ua", .str e.userAgent),
     ("extra", .strMap e.extra)]

/-- Model of Go `http.Header`: canonical-form header keys mapped to lists of
values, as an association list whose order stands for insertion order. -/
abbrev Header := List (String × List String)

/-- Model of Go `http.Header.Get`: the first value for the key, and the empty
string for an absent key.  Keys are modelled in canonical form, on which the
stdlib's key canonicalisation is the identity. -/
def headerGet (h : Header) (key : String) : String :=
  match h.lookup key with
  | some (v :: _) => v
  | _ => ""

/-- Model of `logger.Labels`, a Go `map[string]string`, as an association
list whose order stands for iteration order. -/
abbrev Labels := List (String × String)

/-- Model of Go `sort.Strings`: sort ascending in lexicographic order. -/
def sortStrings (l : List String) : List String :=
  l.insertionSort (· ≤ ·)

/-- Model of `FormatHeaders` (write_helpers.go): collect the header's keys,
sort them ascending, render each key as the colorized key, a colon, and the
key's first value from `Header.Get`, join with single spaces and wrap in
braces. -/
def formatHeaders (tf : TextFormatter) (keyColor : Color) (header : Header) : String :=
  let keys := sortStrings (header.map Prod.fst)
  let values := keys.map fun key => tf.colorize key keyColor ++ ":" ++ headerGet header key
  "\x7b " ++ " ".intercalate values ++ " \x7d"

/-- Model of `FormatLabels` (write_helpers.go): collect the label keys, sort
them ascending, render each as the colorized key, an equals sign, and the
key's value, joined with single spaces. -/
def formatLabels (tf : TextFormatter) (keyColor : Color) (labels : Labels) : String :=
  let keys := sortStrings (labels.map Prod.fst)
  let values := keys.map fun key => tf.colorize key keyColor ++ "=" ++ ((labels.lookup key).getD "")
  " ".intercalate values

/-- Model of Go `*http.Request` restricted to what the helpers read: the
method, the URL (`none` models a nil `req.URL`; `some u` carries the URL's
rendered `String()` form), and the effective remote address. -/
structure HTTPRequest where
  method : String
  url : Option String
  remoteAddr : String

/-- Modelled from the spec (section 4.4): `webutil.GetRemoteAddr`, the
request's effective remote address, empty when none is present. -/
def getRemoteAddr (req : HTTPRequest) : String := req.remoteAddr

/-- Model of `WriteHTTPRequest` (write_helpers.go): the remote address and a
space when present, then the colorized method, then a space and the URL only
when `req.URL` is non-nil. -/
def writeHTTPRequest (tf : TextFormatter) (req : HTTPRequest) : String :=
  (if (getRemoteAddr req).length > 0 then getRemoteAddr req ++ Space else "") ++
  tf.colorize req.method ColorBlue ++
  (match req.url with
   | some u => Space ++ u
   | none => "")

/-- Model of the fraction step of Go `time.Duration.String` (`fmtFrac`):
consume `prec` low decimal digits of `v`, keeping a digit only once a nonzero
digit has been seen, prepend a decimal point when any digit was kept, and
return the printed fraction together with `v` shifted right by `prec` digits. -/
def fmtFrac : Nat → Nat → String → Bool → String × Nat
  | 0, v, acc, prnt => (if prnt then "." ++ acc else "", v)
  | prec + 1, v, acc, prnt =>
    let digit := v % 10
    let keep := prnt || digit != 0
    fmtFrac prec (v / 10) (if keep then (Nat.digitChar digit).toString ++ acc else acc) keep

/-- Model of Go `time.Duration.String` on a duration in nanoseconds: below
one second the largest apt unit among `ns`, `µs`, `ms` with trailing-zero-free
fraction; from one second upwards seconds with fraction, then minutes and
hours; `0s` for zero; a leading minus for negative durations. -/
def durationString (d : Int) : String :=
  let u := d.natAbs
  let core :=
    if u < 1000000000 then
      if u = 0 then "0s"
      else
        let pu : Nat × String :=
          if u < 1000 then (0, "ns")
          else if u < 1000000 then (3, "µs")
          else (6, "ms")
        let fv := fmtFrac pu.1 u "" false
        Nat.repr fv.2 ++ fv.1 ++ pu.2
    else
      let fv := fmtFrac 9 u "" false
      let secs := Nat.repr (fv.2 % 60) ++ fv.1 ++ "s"
      let mval := fv.2 / 60
      if mval > 0 then
        let mins := Nat.repr (mval % 60) ++ "m" ++ secs
        let hval := mval / 60
        if hval > 0 then Nat.repr hval ++ "h" ++ mins else mins
      else secs
  if d < 0 then "-" ++ core else core

/-- Modelled from the spec (section 8): `stringutil.FileSize`, the
human-readable byte size under the size-humanizing convention (42 bytes
renders as `42B`): binary-unit thresholds with integer division, and a plain
`B` suffix below one kilobyte. -/
def fileSize (sizeBytes : Int) : String :=
  if sizeBytes ≥ 1073741824 then toString (sizeBytes / 1073741824) ++ "gb"
  else if sizeBytes ≥ 1048576 then toString (sizeBytes / 1048576) ++ "mb"
  else if sizeBytes ≥ 1024 then toString (sizeBytes / 1024) ++ "kb"
  else toString sizeBytes ++ "B"

/-- Modelled from the spec (section 4.4): `ColorizeStatusCodeWithFormatter`,
the status code in decimal colorized by class: server errors red, client
errors yellow, everything else green. -/
def colorizeStatusCodeWithFormatter (tf : TextFormatter) (statusCode : Int) : String :=
  if statusCode ≥ 500 then tf.colorize (toString statusCode) ColorRed
  else if statusCode ≥ 400 then tf.colorize (toString statusCode) ColorYellow
  else tf.colorize (toString statusCode) ColorGreen

/-- Model of `WriteHTTPResponse` (write_helpers.go): the remote address and a
space when present, the colorized method, the URL, the status code colorized
by class, the elapsed duration, the content type when nonempty, and the
humanized content length, space-separated.  `req.URL.String()` is
dereferenced unconditionally in the source, so a nil URL yields `none`,
modelling the nil-pointer panic. -/
def writeHTTPResponse (tf : TextFormatter) (req : HTTPRequest)
    (statusCode contentLength : Int) (contentType : String) (elapsed : Int) :
    Option String :=
  match req.url with
  | none => none
  | some u => some (
      (if (getRemoteAddr req).length > 0 then getRemoteAddr req ++ Space else "") ++
      tf.colorize req.method ColorBlue ++ Space ++ u ++ Space ++
      colorizeStatusCodeWithFormatter tf statusCode ++ Space ++
      durationString elapsed ++
      (if contentType.length > 0 then Space ++ contentType else "") ++
      Space ++ fileSize contentLength)

/-- An audit event with every explicit field set through the fluent `With*`
mutator chain, starting from an arbitrary event `e₀`. -/
def mutatedAuditEvent (e₀ : AuditEvent) (c p v n s pr ra ua : String)
    (ex : List (String × String)) : AuditEvent :=
  ((((((((e₀.withContext c).withPrincipal p).withVerb v).withNoun
    n).withSubject s).withProperty pr).withRemoteAddress ra).withUserAgent
    ua).withExtra ex

/-- The sorted output of `sortStrings` is a permutation of its input. -/
theorem sortStrings_perm (l : List String) : (sortStrings l).Perm l :=
  List.perm_insertionSort _ _

/-- The output of `sortStrings` is sorted ascending. -/
theorem sortStrings_sorted (l : List String) : (sortStrings l).Sorted (· ≤ ·) :=
  List.sorted_insertionSort _ _

/-- Truncating each header value list to its first element does not change
what `Header.Get` observes. -/
theorem headerGet_map_take_one (h : Header) (k : String) :
    headerGet (h.map fun kv => (kv.1, kv.2.take 1)) k = headerGet h k := by
  induction h with
  | nil => rfl
  | cons a t ih =>
    simp only [List.map_cons, headerGet, List.lookup]
    cases hbeq : k == a.1
    · exact ih
    · cases a.2 with
      | nil => rfl
      | cons v vs => rfl

/-- Association-list lookup is invariant under permutation when the keys are
distinct. -/
theorem lookup_eq_of_perm_nodup {l₁ l₂ : Labels} (hp : l₁.Perm l₂) :
    (l₁.map Prod.fst).Nodup → ∀ k : String, l₁.lookup k = l₂.lookup k := by
  induction hp with
  | nil => exact fun _ _ => rfl
  | cons x hpt ih =>
    intro hnd k
    rw [List.map_cons, List.nodup_cons] at hnd
    simp only [List.lookup]
    cases hbeq : k == x.1
    · exact ih hnd.2 k
    · rfl
  | swap x y l =>
    intro hnd k
    rw [List.map_cons, List.map_cons, List.nodup_cons, List.nodup_cons] at hnd
    simp only [List.lookup]
    cases hby : k == y.1 <;> cases hbx : k == x.1
    · rfl
    · rfl
    · rfl
    · exact absurd ((eq_of_beq hby).symm.trans (eq_of_beq hbx))
        fun hyx => hnd.1 (hyx ▸ List.mem_cons_self _ _)
  | trans hp₁ hp₂ ih₁ ih₂ =>
    intro hnd k
    exact (ih₁ hnd k).trans (ih₂ ((hp₁.map Prod.fst).nodup_iff.mp hnd) k)

/-- C1: with a color-disabled formatter, `WriteText` on an audit event whose
only nonempty fields are Principal `alice` and Verb `login` (all other string
fields empty, empty extras map) writes exactly `"Principal:alice Verb:login "`:
fields render in the fixed order with a trailing space each, and every empty
field is omitted entirely. -/
theorem writeText_principal_verb_only (tf : TextFormatter) (meta : EventMeta)
    (hc : ∀ s c, tf.colorize s c = s) :
    AuditEvent.writeText
      { meta := meta, context := "", principal := "alice", verb := "login",
        noun := "", subject := "", property := "", remoteAddress := "",
        userAgent := "", extra := [] } tf = "Principal:alice Verb:login " := by
  simp only [AuditEvent.writeText, hc]
  rfl

/-- C1 witness: the theorem at the color-disabled formatter and a concrete
metadata value. -/
theorem writeText_principal_verb_only_witness :
    AuditEvent.writeText
      { meta := ⟨"audit", 0⟩, context := "", principal := "alice",
        verb := "login", noun := "", subject := "", property := "",
        remoteAddress := "", userAgent := "", extra := [] }
      noColorFormatter = "Principal:alice Verb:login " :=
  writeText_principal_verb_only noColorFormatter ⟨"audit", 0⟩ fun _ _ => rfl

/-- C2: for every header mapping with distinct keys (the Go map invariant),
`FormatHeaders` renders the keys as a strictly ascending permutation of the
header's keys, each key colorized and followed by a colon and the key's
first value, space-joined and brace-wrapped. -/
theorem formatHeaders_keys_strictly_sorted (tf : TextFormatter)
    (keyColor : Color) (h : Header) (hnd : (h.map Prod.fst).Nodup) :
    ∃ ks : List String,
      ks.Perm (h.map Prod.fst) ∧ List.Sorted (· < ·) ks ∧
      formatHeaders tf keyColor h =
        "\x7b " ++ " ".intercalate (ks.map fun key =>
          tf.colorize key keyColor ++ ":" ++ headerGet h key) ++ " \x7d" := by
  refine ⟨sortStrings (h.map Prod.fst), sortStrings_perm _, ?_, rfl⟩
  exact (sortStrings_sorted _).lt_of_le ((sortStrings_perm _).nodup_iff.mpr hnd)

/-- C2 witness: the theorem at a concrete two-key header inserted in reverse
order. -/
theorem formatHeaders_keys_strictly_sorted_witness :
    (([("b", ["2"]), ("a", ["1"])] : Header).map Prod.fst).Nodup ∧
    ∃ ks : List String,
      ks.Perm (([("b", ["2"]), ("a", ["1"])] : Header).map Prod.fst) ∧
      List.Sorted (· < ·) ks ∧
      formatHeaders noColorFormatter ColorGray [("b", ["2"]), ("a", ["1"])] =
        "\x7b " ++ " ".intercalate (ks.map fun key =>
          noColorFormatter.colorize key ColorGray ++ ":" ++
            headerGet [("b", ["2"]), ("a", ["1"])] key) ++ " \x7d" :=
  ⟨by decide,
   formatHeaders_keys_strictly_sorted noColorFormatter ColorGray _ (by decide)⟩

/-- C3: the flat object handed to `json.Marshal` by `MarshalJSON` recovers,
under the fixed camelCase keys, exactly the values set through the `With*`
mutators, merged with the keys contributed by the embedded EventMeta's
decomposition. -/
theorem marshalJSON_recovers_mutated_fields (e₀ : AuditEvent)
    (c p v n s pr ra ua : String) (ex : List (String × String)) :
    ((mutatedAuditEvent e₀ c p v n s pr ra ua ex).marshalJSONObject.lookup
        "context" = some (.str c)) ∧
    ((mutatedAuditEvent e₀ c p v n s pr ra ua ex).marshalJSONObject.lookup
        "principal" = some (.str p)) ∧
    ((mutatedAuditEvent e₀ c p v n s pr ra ua ex).marshalJSONObject.lookup
        "verb" = some (.str v)) ∧
    ((mutatedAuditEvent e₀ c p v n s pr ra ua ex).marshalJSONObject.lookup
        "noun" = some (.str n)) ∧
    ((mutatedAuditEvent e₀ c p v n s pr ra ua ex).marshalJSONObject.lookup
        "subject" = some (.str s)) ∧
    ((mutatedAuditEvent e₀ c p v n s pr ra ua ex).marshalJSONObject.lookup
        "property" = some (.str pr)) ∧
    ((mutatedAuditEvent e₀ c p v n s pr ra ua ex).marshalJSONObject.lookup
        "remoteAddr" = some (.str ra)) ∧
    ((mutatedAuditEvent e₀ c p v n s pr ra ua ex).marshalJSONObject.lookup
        "ua" = some (.str ua)) ∧
    ((mutatedAuditEvent e₀ c p v n s pr ra ua ex).marshalJSONObject.lookup
        "extra" = some (.strMap ex)) ∧
    ((mutatedAuditEvent e₀ c p v n s pr ra ua ex).marshalJSONObject.lookup
        "flag" = some (.str e₀.meta.flag)) ∧
    ((mutatedAuditEvent e₀ c p v n s pr ra ua ex).marshalJSONObject.lookup
        "ts" = some (.num e₀.meta.ts)) :=
  ⟨rfl, rfl, rfl, rfl, rfl, rfl, rfl, rfl, rfl, rfl, rfl⟩

/-- C4: `WriteHTTPResponse` with method GET, URL `/users`, status code 200,
content length 42, content type `application/json`, elapsed 150ms, no remote
address, and colorization disabled writes exactly
`"GET /users 200 150ms application/json 42B"`. -/
theorem writeHTTPResponse_get_users (tf : TextFormatter)
    (hc : ∀ s c, tf.colorize s c = s) :
    writeHTTPResponse tf { method := "GET", url := some "/users", remoteAddr := "" }
      200 42 "application/json" 150000000 =
      some "GET /users 200 150ms application/json 42B" := by
  simp only [writeHTTPResponse, colorizeStatusCodeWithFormatter, hc]
  rfl

/-- C4 witness: the theorem at the color-disabled formatter. -/
theorem writeHTTPResponse_get_users_witness :
    writeHTTPResponse noColorFormatter
      { method := "GET", url := some "/users", remoteAddr := "" }
      200 42 "application/json" 150000000 =
      some "GET /users 200 150ms application/json 42B" :=
  writeHTTPResponse_get_users noColorFormatter fun _ _ => rfl

/-- C5: the listener built by `NewAuditEventListener` leaves the state
untouched (never invokes the wrapped callback) on any event that is not an
audit event, and on an audit event invokes the callback exactly once with
that same context and event. -/
theorem newAuditEventListener_filters_by_type {Ctx σ : Type}
    (listener : Ctx → AuditEvent → σ → σ) (ctx : Ctx) (s : σ) :
    (∀ e : Event, (∀ a : AuditEvent, e ≠ .audit a) →
      newAuditEventListener listener ctx e s = s) ∧
    (∀ a : AuditEvent,
      newAuditEventListener listener ctx (.audit a) s = listener ctx a s) := by
  refine ⟨fun e he => ?_, fun a => rfl⟩
  cases e with
  | audit a => exact absurd rfl (he a)
  | other kind meta => rfl

/-- C5 witness: a counting callback is not invoked for a non-audit event and
is invoked exactly once for an audit event. -/
theorem newAuditEventListener_filters_by_type_witness :
    newAuditEventListener (fun (_ : Unit) (_ : AuditEvent) (k : Nat) => k + 1) ()
        (.other "http" ⟨"http", 0⟩) 0 = 0 ∧
    newAuditEventListener (fun (_ : Unit) (_ : AuditEvent) (k : Nat) => k + 1) ()
        (.audit { meta := ⟨"audit", 0⟩ }) 0 = 1 :=
  ⟨(newAuditEventListener_filters_by_type _ () 0).1 _
      (fun _ hax => Event.noConfusion hax),
   (newAuditEventListener_filters_by_type _ () 0).2 _⟩

/-- C6: `FormatHeaders` renders, for every key, only what the first-value
accessor `Get` observes: truncating every value list to its first element
leaves the output string unchanged, so values beyond the first never reach
the output. -/
theorem formatHeaders_first_value_only (tf : TextFormatter) (keyColor : Color)
    (h : Header) :
    formatHeaders tf keyColor h =
      formatHeaders tf keyColor (h.map fun kv => (kv.1, kv.2.take 1)) := by
  unfold formatHeaders
  have hkeys : ((h.map fun kv => (kv.1, kv.2.take 1)).map Prod.fst) =
      h.map Prod.fst := by
    rw [List.map_map]
    rfl
  have hfun : (fun key =>
        tf.colorize key keyColor ++ ":" ++
          headerGet (h.map fun kv => (kv.1, kv.2.take 1)) key) =
      fun key => tf.colorize key keyColor ++ ":" ++ headerGet h key := by
    funext key
    rw [headerGet_map_take_one]
  rw [hkeys, hfun]

/-- C7: `FormatLabels` depends only on the key-value contents of the label
mapping: two association lists with distinct keys that are permutations of
one another (one Go map seen in two iteration orders) render to the identical
string. -/
theorem formatLabels_order_independent (tf : TextFormatter) (keyColor : Color)
    (l₁ l₂ : Labels) (hnd : (l₁.map Prod.fst).Nodup) (hp : l₁.Perm l₂) :
    formatLabels tf keyColor l₁ = formatLabels tf keyColor l₂ := by
  unfold formatLabels
  have hkeys : sortStrings (l₁.map Prod.fst) = sortStrings (l₂.map Prod.fst) := by
    refine List.eq_of_perm_of_sorted ?_ (sortStrings_sorted _) (sortStrings_sorted _)
    exact (sortStrings_perm _).trans ((hp.map Prod.fst).trans (sortStrings_perm _).symm)
  have hfun : (fun key =>
        tf.colorize key keyColor ++ "=" ++ ((l₁.lookup key).getD "")) =
      fun key => tf.colorize key keyColor ++ "=" ++ ((l₂.lookup key).getD "") := by
    funext key
    rw [lookup_eq_of_perm_nodup hp hnd key]
  rw [hkeys, hfun]

/-- C7 witness: the theorem at a concrete two-entry mapping presented in two
insertion orders. -/
theorem formatLabels_order_independent_witness :
    (([("b", "2"), ("a", "1")] : Labels).map Prod.fst).Nodup ∧
    formatLabels noColorFormatter ColorGray [("b", "2"), ("a", "1")] =
      formatLabels noColorFormatter ColorGray [("a", "1"), ("b", "2")] :=
  ⟨by decide,
   formatLabels_order_independent noColorFormatter ColorGray _ _ (by decide)
     (List.Perm.swap _ _ _)⟩

/-- C8: every `With*` mutator returns the event it was applied to with
exactly its one named field replaced by the argument (full replacement) and
every other field, the embedded metadata included, unchanged. -/
theorem with_mutators_replace_exactly_one_field (e : AuditEvent)
    (c p v n s pr ra ua : String) (ex : List (String × String)) :
    e.withContext c = { e with context := c } ∧
    e.withPrincipal p = { e with principal := p } ∧
    e.withVerb v = { e with verb := v } ∧
    e.withNoun n = { e with noun := n } ∧
    e.withSubject s = { e with subject := s } ∧
    e.withProperty pr = { e with property := pr } ∧
    e.withRemoteAddress ra = { e with remoteAddress := ra } ∧
    e.withUserAgent ua = { e with userAgent := ua } ∧
    e.withExtra ex = { e with extra := ex } :=
  ⟨rfl, rfl, rfl, rfl, rfl, rfl, rfl, rfl, rfl⟩

/-- C9: `WriteHTTPRequest` on a request whose URL is nil is well-defined: it
writes the remote address followed by a space when one is present, then the
colorized method, and omits the URL segment and its separating space. -/
theorem writeHTTPRequest_nil_url (tf : TextFormatter) (req : HTTPRequest)
    (hu : req.url = none) :
    writeHTTPRequest tf req =
      (if (getRemoteAddr req).length > 0 then getRemoteAddr req ++ Space else "") ++
        tf.colorize req.method ColorBlue := by
  unfold writeHTTPRequest
  rw [hu]
  simp

/-- C9 witness: the theorem at a concrete nil-URL request with a remote
address present. -/
theorem writeHTTPRequest_nil_url_witness :
    writeHTTPRequest noColorFormatter
      { method := "GET", url := none, remoteAddr := "10.0.0.1" } = "10.0.0.1 GET" :=
  (writeHTTPRequest_nil_url noColorFormatter
    { method := "GET", url := none, remoteAddr := "10.0.0.1" } rfl).trans rfl

/-- C10: `FormatHeaders` of an empty header mapping is exactly the string of
an open brace, two spaces, and a close brace, and `FormatLabels` of an empty
label mapping is the empty string. -/
theorem formatHeaders_formatLabels_empty (tf : TextFormatter) (keyColor : Color) :
    formatHeaders tf keyColor [] = "\x7b  \x7d" ∧
    formatLabels tf keyColor [] = "" :=
  ⟨rfl, rfl⟩

end Logger
